import Mathlib

/-!
# Verification of the Dify plugin-schema validation engine

Shallow embedding of the schema-diagnostic engine of the
`vscode-dify-plugin-schema` extension:

* `src/yamlValidator.ts` (`initializeValidator`, `validateYamlDocument`,
  `formatErrorMessage`, `getErrorRange`, `fallbackValidation`),
* `src/validator.ts` (`getRangeForPath`, `validateManifest`),
* `src/extension.ts` (`checkDifyDirectory`) and
  `src/decorationProvider.ts` (`addDifyDirectory`, `removeDifyDirectory`).

External collaborators (the YAML parser, the compiled Ajv validator, the
file system, the editor's diagnostic collection) are passed in as explicit
function parameters, mirroring how the code consumes them.  JavaScript
regular expressions are embedded by specialised executors for the exact
patterns the code builds; note that the code builds some of those patterns
inside untagged template literals where `\s` is the *non-escape* sequence
cooking to the literal character `s` — the embedding reproduces that
cooked pattern, not the presumably intended `\s` character class.
-/

namespace Dify

/-- JavaScript `\s` (the whitespace characters that can occur in the
documents at hand: space, tab, LF, CR, VT, FF). -/
def isWs (c : Char) : Bool :=
  c = ' ' || c = '\t' || c = '\n' || c = '\r' || c = '\x0b' || c = '\x0c'

/-- Length of the maximal leading whitespace run (greedy `\s*`). -/
def wsRun : List Char → Nat
  | [] => 0
  | c :: cs => if isWs c then wsRun cs + 1 else 0

/-- Length of the maximal leading run of the literal character `s`
(the cooked form of `\s*` inside an untagged template literal). -/
def sRun : List Char → Nat
  | [] => 0
  | c :: cs => if c = 's' then sRun cs + 1 else 0

/-- Number of `'\n'` characters in a list (JS `str.split('\n').length - 1`). -/
def countNl (cs : List Char) : Nat := (cs.filter (fun c => c = '\n')).length

/-- `String.prototype.split(sep)` for a one-character separator, over the
character list (`''.split(sep)` is `['']`). -/
def splitCh (sep : Char) : List Char → List (List Char)
  | [] => [[]]
  | c :: cs =>
    let r := splitCh sep cs
    if c = sep then [] :: r
    else
      match r with
      | h :: t => (c :: h) :: t
      | [] => [[c]]

/-- `String.prototype.split(sep)` for a one-character separator. -/
def splitOnCh (sep : Char) (s : String) : List String :=
  (splitCh sep s.data).map String.mk

/-- `Array.prototype.join(sep)`. -/
def jsJoin (sep : String) : List String → String
  | [] => ""
  | [s] => s
  | s :: rest => s ++ sep ++ jsJoin sep rest

/-- A zero-based (line, column) position, as in `vscode.Position`. -/
structure Pos where
  line : Nat
  col : Nat
deriving DecidableEq, Repr

/-- A text range, as in `vscode.Range`. -/
structure TextRange where
  startLine : Nat
  startCol : Nat
  endLine : Nat
  endCol : Nat
deriving DecidableEq, Repr

/-- The document-start range `(0,0)-(0,0)` (`new vscode.Range(0, 0, 0, 0)`). -/
def range0 : TextRange := ⟨0, 0, 0, 0⟩

def rangeOfPositions (p q : Pos) : TextRange := ⟨p.line, p.col, q.line, q.col⟩

def positionAtAux : List Char → Nat → Nat → Nat → Pos
  | _, 0, l, c => ⟨l, c⟩
  | [], _, l, c => ⟨l, c⟩
  | ch :: cs, n + 1, l, c =>
    if ch = '\n' then positionAtAux cs n (l + 1) 0 else positionAtAux cs n l (c + 1)

/-- `TextDocument.positionAt(offset)`: offset→(line, column), the offset
clamped to the document length. -/
def positionAt (text : String) (offset : Nat) : Pos :=
  positionAtAux text.data offset 0 0

/-- `Position.translate(0, n)` applied to the end of a zero-width range at `p`. -/
def rangeAt (p : Pos) (len : Nat) : TextRange := ⟨p.line, p.col, p.line, p.col + len⟩

/-- The document's lines (`TextDocument` splits on line breaks; the sources
under test use `'\n'`). -/
def docLines (text : String) : List String := splitOnCh '\n' text

/-- `TextDocument.lineCount` (always at least 1). -/
def lineCount (text : String) : Nat := (docLines text).length

/-- The range of line `i`: from column 0 to the line's length
(`line.range.start` to `line.range.end`). -/
def lineRange (text : String) (i : Nat) : TextRange :=
  ⟨i, 0, i, ((docLines text).getD i "").length⟩

inductive Severity
  | error
  | warning
deriving DecidableEq, Repr

/-- A `vscode.Diagnostic`. -/
structure Diagnostic where
  range : TextRange
  message : String
  severity : Severity
deriving DecidableEq, Repr

/-- `path.basename`: the last `/`-separated component. -/
def basename (p : String) : String := (splitOnCh '/' p).getLastD ""

/-! ## Ajv error objects

Per the design note, the duck-typed `params` of an Ajv `ErrorObject` is
modelled as a closed tagged union keyed by the error keyword, each variant
carrying exactly the fields the formatter reads for that keyword. -/

inductive ErrKind
  | required (missingProperty : String)
  | ofType (t : String)
  | ofEnum (allowedValues : List String)
  | ofPattern (p : String)
  | ofFormat (f : String)
  | ofMinimum (limit : Int)
  | ofMaximum (limit : Int)
  | ofMinProperties (limit : Int)
  | other
deriving DecidableEq, Repr

/-- An Ajv `ErrorObject`: the instance path (a JSON-Pointer string), the
keyword with its params, and the engine's raw message (`undefined` or the
empty string are both falsy to the code, hence `Option`). -/
structure ErrorObject where
  instancePath : String
  kind : ErrKind
  message : Option String
deriving DecidableEq, Repr

/-- `instancePath.replace(/^\//, '')`. -/
def stripLeadingSlash (s : String) : String :=
  match s.data with
  | '/' :: rest => String.mk rest
  | _ => s

/-- `path.replace(/\//g, '.')`. -/
def slashToDot (s : String) : String :=
  String.mk (s.data.map (fun c => if c = '/' then '.' else c))

/-- The `formattedPath` of `formatErrorMessage`: leading slash stripped,
remaining slashes turned into dots (`''` stays `''`). -/
def formattedPath (instancePath : String) : String :=
  slashToDot (stripLeadingSlash instancePath)

/-- `yamlValidator.ts` / `formatErrorMessage`: the switch over the Ajv
error keyword producing the human-readable message. -/
def formatErrorMessage (e : ErrorObject) : String :=
  let fp := formattedPath e.instancePath
  match e.kind with
  | .required mp => "Missing required property: '" ++ mp ++ "'"
  | .ofType t => "'" ++ fp ++ "' should be " ++ t
  | .ofEnum vs => "'" ++ fp ++ "' should be one of: " ++ jsJoin ", " vs
  | .ofPattern p => "'" ++ fp ++ "' should match pattern: " ++ p
  | .ofFormat f => "'" ++ fp ++ "' should be a valid " ++ f
  | .ofMinimum l => "'" ++ fp ++ "' should be >= " ++ toString l
  | .ofMaximum l => "'" ++ fp ++ "' should be <= " ++ toString l
  | .ofMinProperties l => "'" ++ fp ++ "' should have at least " ++ toString l ++ " properties"
  | .other =>
    match e.message with
    | some m =>
      if m = "" then "Validation error in " ++ (if fp = "" then "manifest" else fp) else m
    | none => "Validation error in " ++ (if fp = "" then "manifest" else fp)

/-! ## The spec's formatter (for the C2 refinement)

The spec's §4.4 table speaks of the structured JSON-Pointer path (an
ordered sequence of segments) and of "the dot-joined rendering of the
JSON-Pointer path with the leading separator stripped".  The following
definitions follow the spec's words over the structured path; the claim
compares them with `formatErrorMessage`, which works on the rendered
pointer string. -/

/-- The JSON-Pointer rendering of a structured path: one `/` before each
segment (`[]` renders as `""`). -/
def renderPointer : List String → String
  | [] => ""
  | s :: rest => "/" ++ s ++ renderPointer rest

/-- Dot-joined rendering of a path's segments. -/
def dotJoined : List String → String
  | [] => ""
  | [s] => s
  | s :: rest => s ++ "." ++ dotJoined rest

/-- Modelled from the spec: the §4.4 message-template table, over the
structured failure (path as a segment list, kind, raw engine message). -/
def specFormatMessage (path : List String) (kind : ErrKind) (message : Option String) : String :=
  let p := dotJoined path
  match kind with
  | .required mp => "Missing required property: '" ++ mp ++ "'"
  | .ofType t => "'" ++ p ++ "' should be " ++ t
  | .ofEnum vs => "'" ++ p ++ "' should be one of: " ++ jsJoin ", " vs
  | .ofPattern pat => "'" ++ p ++ "' should match pattern: " ++ pat
  | .ofFormat f => "'" ++ p ++ "' should be a valid " ++ f
  | .ofMinimum l => "'" ++ p ++ "' should be >= " ++ toString l
  | .ofMaximum l => "'" ++ p ++ "' should be <= " ++ toString l
  | .ofMinProperties l => "'" ++ p ++ "' should have at least " ++ toString l ++ " properties"
  | .other =>
    match message with
    | some m => if m = "" then "Validation error in " ++ (if p = "" then "manifest" else p) else m
    | none => "Validation error in " ++ (if p = "" then "manifest" else p)

/-! ## Regex executors

`yamlValidator.ts` builds three regex shapes (all with correctly escaped
`\\s` in the template literal, so they cook to the `\s` class):
`` `${seg}\s*:` ``, `` `${fullPathWithDotsReplaced}\s*:` `` and `/line (\d+)/`.
Each is embedded as a positional matcher plus a leftmost-occurrence scan
(`RegExp.exec` with a fresh regex object scans left to right). -/

/-- Match `` `${key}\s*:` `` at the head of `cs`; returns the match length.
`\s*` is greedy and no backtracking can help it (a shorter run ends on a
whitespace character, never on `:`). -/
def matchKeyColonAt (key : List Char) (cs : List Char) : Option Nat :=
  if key.isPrefixOf cs then
    let rest := cs.drop key.length
    let w := wsRun rest
    match rest.drop w with
    | ':' :: _ => some (key.length + w + 1)
    | _ => none
  else none

/-- Match the continuation `` `(\s*\.\s*SEG)*\s*:` `` at the head of `cs`,
one `\s*\.\s*SEG` group per remaining segment; returns the match length. -/
def matchDotTail : List String → List Char → Option Nat
  | [], cs =>
    let w := wsRun cs
    match cs.drop w with
    | ':' :: _ => some (w + 1)
    | _ => none
  | seg :: rest, cs =>
    let w1 := wsRun cs
    match cs.drop w1 with
    | '.' :: cs2 =>
      let w2 := wsRun cs2
      let cs3 := (cs2.drop w2)
      if seg.data.isPrefixOf cs3 then
        (matchDotTail rest (cs3.drop seg.length)).map (fun n => w1 + 1 + w2 + seg.length + n)
      else none
    | _ => none

/-- Match `` `${segs.join('\s*\.\s*')}\s*:` `` at the head of `cs`. -/
def matchFullPathAt (segs : List String) (cs : List Char) : Option Nat :=
  match segs with
  | [] => matchDotTail [] cs
  | seg :: rest =>
    if seg.data.isPrefixOf cs then
      (matchDotTail rest (cs.drop seg.length)).map (fun n => seg.length + n)
    else none

/-- Leftmost match of a positional matcher: `RegExp.exec` on a fresh
regex returns `(index, matchLength)` of the first position that matches. -/
def execLeftmost (m : List Char → Option Nat) : List Char → Option (Nat × Nat)
  | [] => (m []).map (fun l => (0, l))
  | c :: cs =>
    match m (c :: cs) with
    | some l => some (0, l)
    | none => (execLeftmost m cs).map (fun p => (p.1 + 1, p.2))

/-- Maximal leading digit run (`\d+`, greedy). -/
def digitRun : List Char → List Char
  | [] => []
  | c :: cs => if c.isDigit then c :: digitRun cs else []

/-- `parseInt(digits, 10)` for a nonempty digit run. -/
def digitsToNat (ds : List Char) : Nat :=
  ds.foldl (fun a c => a * 10 + (c.toNat - 48)) 0

/-- `message.match(/line (\d+)/)`: the first occurrence of `line ` followed
by at least one digit; yields the captured number. -/
def extractLineNumAux : List Char → Option Nat
  | [] => none
  | c :: cs =>
    if ("line ".data).isPrefixOf (c :: cs) then
      match digitRun ((c :: cs).drop 5) with
      | [] => extractLineNumAux cs
      | ds => some (digitsToNat ds)
    else extractLineNumAux cs

def extractLineNum (msg : String) : Option Nat := extractLineNumAux msg.data

/-! ## YAML values (the result of `YAML.parse`) -/

inductive YamlValue
  | vNull
  | vBool (b : Bool)
  | vNum (n : Int)
  | vStr (s : String)
  | vSeq (items : List YamlValue)
  | vMap (entries : List (String × YamlValue))

/-- JavaScript falsiness of a parsed YAML value (`!parsedYaml`,
`!parsedYaml[field]`): `null`, `false`, `0` and `''` are falsy; arrays and
objects are truthy. -/
def falsy : YamlValue → Bool
  | .vNull => true
  | .vBool b => !b
  | .vNum n => n = 0
  | .vStr s => s = ""
  | .vSeq _ => false
  | .vMap _ => false

/-- `parsedYaml[field]`: property lookup, `undefined` (`none`) on
non-objects and absent keys. -/
def mapLookup : YamlValue → String → Option YamlValue
  | .vMap entries, f => (entries.find? (fun e => e.1 = f)).map (fun e => e.2)
  | _, _ => none

/-- JavaScript strict equality `value === someString`: true exactly when
the value is that string. -/
def isStrEq : YamlValue → String → Bool
  | .vStr s, t => s = t
  | _, _ => false

/-- `parsedYaml[field]` is present and truthy. -/
def truthyProp (y : YamlValue) (f : String) : Bool :=
  match mapLookup y f with
  | some v => !falsy v
  | none => false

/-! ## `yamlValidator.ts` / `getErrorRange` -/

/-- The `required` branch's loop over `parentSegments`: per segment, run
`` `${segment}\s*:` `` over the current `searchText`; on a match add
`match.index` to `currentOffset` and truncate `searchText` to just past
the match; on a miss report failure (`parentFound = false`).  Returns the
final `parentPos` on success.  Note the accumulated offset adds raw match
indexes of progressively truncated strings, so it is not in general the
match's offset in the original text — embedded as the code computes it. -/
def requiredWalk : List String → List Char → Nat → Option Nat
  | [], _, acc => some acc
  | seg :: rest, searchText, acc =>
    match execLeftmost (matchKeyColonAt seg.data) searchText with
    | some (i, len) => requiredWalk rest (searchText.drop (i + len)) (acc + i)
    | none => none

/-- `yamlValidator.ts` / `getErrorRange`.  The `document` argument of the
source only serves `positionAt`, so the embedding takes the text.
The `try`/`catch` around the body cannot fire in the embedding (every
operation is total), so only the `try` body is modelled. -/
def getErrorRange (e : ErrorObject) (text : String) : TextRange :=
  let path := splitOnCh '/' (stripLeadingSlash e.instancePath)
  match e.kind with
  | .required _ =>
    -- parentPath = path.length ? path.join('.') + '.' : ''
    let parentPath := if path.length ≠ 0 then jsJoin "." path ++ "." else ""
    if parentPath ≠ "" then
      match requiredWalk (splitOnCh '.' parentPath) text.data 0 with
      | some pos =>
        let p := positionAt text pos
        rangeOfPositions p p
      | none => range0
    else
      -- no parent path: "we're at the root", parentPos stays 0
      rangeOfPositions (positionAt text 0) (positionAt text 0)
  | _ =>
    -- fullPath.replace(/\./g, '\\s*\\.\\s*') rewrites every dot of the
    -- *joined* string, so the pattern's literal pieces are fullPath.split('.')
    let fullPath := jsJoin "." path
    match execLeftmost (matchFullPathAt (splitOnCh '.' fullPath)) text.data with
    | some (i, len) => rangeAt (positionAt text i) len
    | none =>
      if path.length > 0 then
        match execLeftmost (matchKeyColonAt (path.getLastD "").data) text.data with
        | some (i, len) => rangeAt (positionAt text i) len
        | none => range0
      else range0

/-! ## `yamlValidator.ts` / `fallbackValidation` -/

def requiredTopLevelFields : List String :=
  ["version", "type", "author", "name", "label", "description", "icon", "resource", "meta"]

/-- One diagnostic of the fallback's required-field loop. -/
def fallbackFieldDiag (text : String) (field : String) : Diagnostic :=
  match execLeftmost (matchKeyColonAt field.data) text.data with
  | some (i, _) =>
    ⟨rangeAt (positionAt text i) (field.length + 1),
      "The '" ++ field ++ "' field is required but has no value", .error⟩
  | none => ⟨range0, "Missing required field: '" ++ field ++ "'", .error⟩

/-- `parsedYaml.type.length` as the fallback's range arithmetic uses it.
For a non-string truthy `type` the code reads `.length` of a value that
has none, and the range arithmetic degrades (NaN column); no claim
exercises that corner, and the embedding returns 0 there. -/
def jsValueLength : YamlValue → Nat
  | .vStr s => s.length
  | _ => 0

/-- `yamlValidator.ts` / `fallbackValidation`: the basic checks used when
the schema failed to load. -/
def fallbackValidation (y : YamlValue) (text : String) : List Diagnostic :=
  let reqDiags := requiredTopLevelFields.filterMap (fun field =>
    if truthyProp y field then none else some (fallbackFieldDiag text field))
  let typeDiags :=
    match mapLookup y "type" with
    | some v =>
      if !falsy v && !isStrEq v "plugin" then
        match execLeftmost (matchKeyColonAt "type".data) text.data with
        | some (i, len) =>
          [⟨rangeAt (positionAt text i) (len + jsValueLength v), "Type must be 'plugin'", .error⟩]
        | none => []
      else []
    | none => []
  reqDiags ++ typeDiags

/-! ## `yamlValidator.ts` / `validateYamlDocument` -/

/-- The catch-block diagnostic for a message `msg` thrown while parsing:
range over the line reported by `/line (\d+)/` clamped with
`Math.min(lineNumber, lineCount - 1)`, or `(0,0)-(0,0)` when no line is
reported.  `document.lineAt` throws on a negative line, which happens
exactly when the message reports `line 0`; that throw is the `.error`
case. -/
def parseErrorDiag (text msg : String) : Except String Diagnostic :=
  match extractLineNum msg with
  | some n =>
    if n = 0 then .error "Illegal value for line"
    else .ok ⟨lineRange text (min (n - 1) (lineCount text - 1)),
      "YAML parsing error: " ++ msg, .error⟩
  | none => .ok ⟨range0, "YAML parsing error: " ++ msg, .error⟩

/-- One diagnostic per Ajv error, as the validation loop builds it. -/
def mkSchemaDiag (text : String) (e : ErrorObject) : Diagnostic :=
  ⟨getErrorRange e text, formatErrorMessage e, .error⟩

/-- The `try` body of `validateYamlDocument` after the filename guard:
parse, treat a falsy parse as `Empty YAML document`, then either run the
compiled schema validator (when loaded) or the fallback.  Returns the
diagnostics list together with the number of times the schema validator
was invoked (the spec's validator-stub call count). -/
def runValidationE (validate : Option (YamlValue → List ErrorObject))
    (parse : String → Except String YamlValue) (text : String) :
    Except String (List Diagnostic × Nat) :=
  match parse text with
  | .error msg => (parseErrorDiag text msg).map (fun d => ([d], 0))
  | .ok y =>
    if falsy y then (parseErrorDiag text "Empty YAML document").map (fun d => ([d], 0))
    else
      match validate with
      | some f => .ok ((f y).map (mkSchemaDiag text), 1)
      | none => .ok (fallbackValidation y text, 0)

/-- The `yamlDiagnostics` collection: per-URI stored diagnostic lists. -/
def DiagCollection := String → Option (List Diagnostic)

/-- `collection.set(uri, diagnostics)`. -/
def setDiags (uri : String) (ds : List Diagnostic) (c : DiagCollection) : DiagCollection :=
  fun u => if u = uri then some ds else c u

/-- `collection.delete(uri)`. -/
def deleteDiags (uri : String) (c : DiagCollection) : DiagCollection :=
  fun u => if u = uri then none else c u

/-- A `vscode.TextDocument` as the validator consumes it: its file name
(also standing for its URI key) and its text. -/
structure VsDocument where
  fileName : String
  text : String

/-- `yamlValidator.ts` / `validateYamlDocument`: guard on the basename,
compute the diagnostics, store them under the document's URI.  The
collaborators `YAML.parse` and the compiled Ajv validator are passed in;
`validate = none` is the unloaded-schema state. -/
def validateYamlDocument (validate : Option (YamlValue → List ErrorObject))
    (parse : String → Except String YamlValue)
    (doc : VsDocument) (coll : DiagCollection) : Except String DiagCollection :=
  if basename doc.fileName ≠ "manifest.yaml" then .ok coll
  else (runValidationE validate parse doc.text).map (fun r => setDiags doc.fileName r.1 coll)

/-! ## `yamlValidator.ts` / `initializeValidator` -/

/-- The module state `initializeValidator` leaves behind: the compiled
validator (or `none`) and what was written to the console. -/
structure ValidatorState where
  validate : Option (YamlValue → List ErrorObject)
  log : List String

/-- `yamlValidator.ts` / `initializeValidator`: read the schema file,
`JSON.parse` it, compile it; any throw is caught and logged, leaving
`validate` unset.  `σ` is the parsed-schema type; reading and parsing are
the fallible collaborators. -/
def initializeValidator {σ : Type} (readSchema : Except String String)
    (parseJson : String → Except String σ)
    (compile : σ → YamlValue → List ErrorObject) : ValidatorState :=
  match readSchema with
  | .error e => ⟨none, ["Error loading schema: " ++ e]⟩
  | .ok content =>
    match parseJson content with
    | .error e => ⟨none, ["Error loading schema: " ++ e]⟩
    | .ok s => ⟨some (compile s), ["Schema loaded successfully"]⟩

/-! ## `validator.ts` / `getRangeForPath`

This file builds its patterns inside *untagged template literals with a
single backslash*: `` `^(\s*)(${segment}):` `` and
`` `^\s{${currentIndent + 2}}-\s` ``.  In a JS template literal `\s` is a
NonEscapeCharacter and cooks to the plain character `s`, so the runtime
patterns are `^(s*)(SEG):` and `^s{K}-s` — runs of the letter `s`, not
whitespace.  The embedding reproduces the cooked patterns. -/

/-- Greedy-with-backtracking `(s*)` followed by `target`: the largest
`k ≤ maxRun` such that `target` follows `k` characters in. -/
def tryKs (target cs : List Char) : Nat → Option Nat
  | 0 => if target.isPrefixOf cs then some 0 else none
  | k + 1 =>
    if target.isPrefixOf (cs.drop (k + 1)) then some (k + 1) else tryKs target cs k

/-- Match the cooked `^(s*)(SEG):` at a line-start position: returns
`(capture length, total match length)`. -/
def matchSKeyAt (seg : List Char) (cs : List Char) : Option (Nat × Nat) :=
  (tryKs (seg ++ [':']) cs (sRun cs)).map (fun k => (k, k + seg.length + 1))

/-- Match the cooked `^s{k}-s` at a line-start position: exactly `k`
letters `s`, then `-`, then `s`; returns the match length. -/
def matchIdxAt (k : Nat) (cs : List Char) : Option Nat :=
  if ((cs.take k).length == k) && (cs.take k).all (fun c => c == 's') then
    match cs.drop k with
    | '-' :: 's' :: _ => some (k + 2)
    | _ => none
  else none

/-- `RegExp.exec` with the `m` flag: try the `^`-anchored matcher at
offset 0 and after every `'\n'`, left to right; returns
`(match index, matcher result)`. -/
def execMLAux {α : Type} (mf : List Char → Option α) : List Char → Nat → Option (Nat × α)
  | [], _ => none
  | c :: cs, i =>
    if c = '\n' then
      match mf cs with
      | some r => some (i + 1, r)
      | none => execMLAux mf cs (i + 1)
    else execMLAux mf cs (i + 1)

def execML {α : Type} (mf : List Char → Option α) (cs : List Char) : Option (Nat × α) :=
  match mf cs with
  | some r => some (0, r)
  | none => execMLAux mf cs 0

/-- `String.prototype.indexOf`: first occurrence of `needle`, `none` when
absent. -/
def indexOfList? (needle : List Char) : List Char → Option Nat
  | [] => if needle.isPrefixOf ([] : List Char) then some 0 else none
  | c :: t =>
    if needle.isPrefixOf (c :: t) then some 0
    else (indexOfList? needle t).map (fun i => i + 1)

/-- The array-index branch's `while` loop: repeatedly `exec` the cooked
`^s{k}-s` pattern against ever-later suffixes of the search area, until
the `n`-th match is reached (`true`) or `exec` misses (`false`).  Note
the loop's only live effect is whether `foundMatch` is null at the end:
`searchFromLine` is computed and never used, and no scan state is
updated. -/
def idxSearch (k : Nat) : Nat → List Char → Bool
  | n, area =>
    match execML (matchIdxAt k) area with
    | none => false
    | some (i, len) =>
      match n with
      | 0 => true
      | n + 1 => idxSearch k n (area.drop (i + len))

/-- `/^\d+$/.test(segment)`. -/
def isIndexSeg (seg : String) : Bool :=
  !seg.data.isEmpty && seg.data.all (fun c => c.isDigit)

/-- The `for` loop of `getRangeForPath`, over the remaining path segments
with the loop state `(currentLine, searchArea, currentIndent)`.  Key
segments: exec the cooked `^(s*)(SEG):` over `searchArea`; on a miss
return `(currentLine,0)-(currentLine,0)`; on a hit recover the match's
document offset via `docText.indexOf(match[0])` (the *first* occurrence
of the matched string), update the state, and if the segment is last
return the key token's range.  Index segments: run `idxSearch`; on a miss
return the fallback; on a hit continue with the state *unchanged* (the
source computes `searchFromLine` and drops it). -/
def walkSegs (docText : List Char) : List String → Nat → List Char → Int → TextRange
  | [], currentLine, _, _ => ⟨currentLine, 0, currentLine, 0⟩
  | seg :: rest, currentLine, searchArea, currentIndent =>
    if isIndexSeg seg then
      let n := digitsToNat seg.data
      let k := (currentIndent + 2).toNat
      if idxSearch k n searchArea then
        walkSegs docText rest currentLine searchArea currentIndent
      else ⟨currentLine, 0, currentLine, 0⟩
    else
      match execML (matchSKeyAt seg.data) searchArea with
      | none => ⟨currentLine, 0, currentLine, 0⟩
      | some (i, r) =>
        let matched := (searchArea.drop i).take r.2
        -- the matched string occurs in searchArea, a suffix of docText,
        -- so indexOf cannot return -1; getD 0 is unreachable
        let idx0 := (indexOfList? matched docText).getD 0
        let line' := countNl (docText.take idx0)
        if rest.isEmpty then ⟨line', r.1, line', r.1 + seg.length⟩
        else walkSegs docText rest line' (docText.drop (idx0 + r.2)) (r.1 : Int)

/-- `validator.ts` / `getRangeForPath`: split the JSON path on `/`, drop
the leading empty segment, walk from the document start with
`currentIndent = -1`. -/
def getRangeForPath (docText : String) (jsonPath : String) : TextRange :=
  walkSegs docText.data ((splitOnCh '/' jsonPath).drop 1) 0 docText.data (-1)

/-! ## `validator.ts` / `validateManifest` -/

/-- The outcome of `yaml.parse` as `validateManifest`'s `catch` block
distinguishes it: a value, a `YAMLParseError` (with its optional
`[start, end]` offset pair), or any other thrown `Error`. -/
inductive ParseOutcome
  | ok (v : YamlValue)
  | parseError (message : String) (pos : Option (Nat × Nat))
  | otherError (message : String)

/-- `${error.message}` when `message` may be `undefined`. -/
def ajvMessageOrUndefined : Option String → String
  | some m => m
  | none => "undefined"

/-- The diagnostics `validateManifest` computes for one document text. -/
def manifestDiags (validateFn : YamlValue → List ErrorObject)
    (outcome : ParseOutcome) (text : String) : List Diagnostic :=
  match outcome with
  | .ok v =>
    (validateFn v).map (fun e =>
      ⟨getRangeForPath text e.instancePath,
        ajvMessageOrUndefined e.message ++ " (" ++ e.instancePath ++ ")", .error⟩)
  | .parseError m pos =>
    let p := match pos with
      | some pr => positionAt text pr.1
      | none => (⟨0, 0⟩ : Pos)
    let q := match pos with
      | some pr => positionAt text pr.2
      | none => p
    [⟨rangeOfPositions p q, "YAML Parsing Error: " ++ m, .error⟩]
  | .otherError m => [⟨range0, "Validation Error: " ++ m, .error⟩]

/-- `validator.ts` / `validateManifest`: guard on the workspace folder
(`!workspaceFolderUri || !document.uri.fsPath.startsWith(folder.fsPath)`)
and on the basename, then compute and store the diagnostics under the
document's URI. -/
def validateManifest (validateFn : YamlValue → List ErrorObject)
    (parse : String → ParseOutcome)
    (doc : VsDocument) (coll : DiagCollection)
    (workspaceFolderUri : Option String) : DiagCollection :=
  match workspaceFolderUri with
  | none => coll
  | some w =>
    if !(w.data.isPrefixOf doc.fileName.data) then coll
    else if basename doc.fileName ≠ "manifest.yaml" then coll
    else setDiags doc.fileName (manifestDiags validateFn (parse doc.text) doc.text) coll

/-! ## `extension.ts` / `checkDifyDirectory` and the decoration registry -/

inductive DirEvent
  | added (uri : String)
  | removed (uri : String)
deriving DecidableEq, Repr

/-- `DifyManifestDecorationProvider.addDifyDirectory`: insert and fire a
change event only when the URI is new. -/
def addDifyDirectory (uri : String) (dirs : List String) : List String × List DirEvent :=
  if uri ∈ dirs then (dirs, []) else (uri :: dirs, [.added uri])

/-- `DifyManifestDecorationProvider.removeDifyDirectory`: delete and fire
a change event only when the URI was present. -/
def removeDifyDirectory (uri : String) (dirs : List String) : List String × List DirEvent :=
  if uri ∈ dirs then (dirs.erase uri, [.removed uri]) else (dirs, [])

/-- The extension's module state: the `confirmedDifyDirs` set, the
decoration provider's directory set, and the diagnostic collection. -/
structure ExtState where
  confirmedDifyDirs : List String
  decoDirs : List String
  diagnostics : DiagCollection

/-- The marker files `checkDifyDirectory` requires. -/
def difyFiles : List String := [".difyignore", "manifest.yaml", "main.py"]

/-- `vscode.Uri.joinPath(folder.uri, 'manifest.yaml')`. -/
def manifestUriOf (folderUri : String) : String := folderUri ++ "/manifest.yaml"

/-- `extension.ts` / `checkDifyDirectory`: scan the markers in order; on
the first missing one, demote the folder if it was confirmed (erase it
from both sets, delete its manifest diagnostics) and return.  If all
markers exist and the folder is new, confirm it (insert into both sets,
and run `validateManifest` for the folder's manifest when it is open in a
visible editor — passed in as `validateOpenManifest`); otherwise no-op.
`exists_ f` is `fs.existsSync(path.join(workspaceRoot, f))`. -/
def checkDifyDirectory (exists_ : String → Bool)
    (folderUri : String)
    (validateOpenManifest : Option (DiagCollection → DiagCollection))
    (st : ExtState) : ExtState × List DirEvent :=
  match difyFiles.find? (fun f => !exists_ f) with
  | some _ =>
    if folderUri ∈ st.confirmedDifyDirs then
      let r := removeDifyDirectory folderUri st.decoDirs
      ({ confirmedDifyDirs := st.confirmedDifyDirs.erase folderUri,
         decoDirs := r.1,
         diagnostics := deleteDiags (manifestUriOf folderUri) st.diagnostics }, r.2)
    else (st, [])
  | none =>
    if folderUri ∈ st.confirmedDifyDirs then (st, [])
    else
      let r := addDifyDirectory folderUri st.decoDirs
      ({ confirmedDifyDirs := folderUri :: st.confirmedDifyDirs,
         decoDirs := r.1,
         diagnostics :=
           match validateOpenManifest with
           | some v => v st.diagnostics
           | none => st.diagnostics }, r.2)

/-! ## The spec's list-marker locator (for exhibiting C9's divergence) -/

/-- A line at exactly `indent` spaces of indentation whose first
non-space content is `- `. -/
def lineIsListItem (s : String) (indent : Nat) : Bool :=
  ((s.data.take indent).length == indent) &&
    (s.data.take indent).all (fun c => c == ' ') &&
    (match s.data.drop indent with
     | '-' :: ' ' :: _ => true
     | _ => false)

/-- Modelled from the spec: §4.1's `locateListMarker(searchScopeStart,
indentLevel, n)` — the n-th line (0-indexed), at or after the scope-start
line, at exactly `indent` spaces of indentation whose first non-space
content is `- `.  Returns that line's number. -/
def specLocateListMarker (text : String) (fromLine indent n : Nat) : Option Nat :=
  ((((docLines text).enum).filter
      (fun p => decide (fromLine ≤ p.1) && lineIsListItem p.2 indent)).get? n).map
    (fun p => p.1)

/-! ## Theorems -/

/-- Helper for the C2 refinement: the dot-prefixed character rendering of
a segment list (`.s₁.s₂…`). -/
def dotPrefixData : List String → List Char
  | [] => []
  | s :: rest => '.' :: (s.data ++ dotPrefixData rest)

lemma map_slashDot_of_no_slash (cs : List Char) (h : '/' ∉ cs) :
    cs.map (fun c => if c = '/' then '.' else c) = cs := by
  induction cs with
  | nil => rfl
  | cons c t ih =>
    simp only [List.mem_cons, not_or] at h
    simp only [List.map_cons, ih h.2]
    rw [if_neg (fun hce => h.1 hce.symm)]

lemma map_slashDot_renderPointer (l : List String) (h : ∀ s ∈ l, '/' ∉ s.data) :
    ((renderPointer l).data).map (fun c => if c = '/' then '.' else c) = dotPrefixData l := by
  induction l with
  | nil => rfl
  | cons s rest ih =>
    have hd : (renderPointer (s :: rest)).data = '/' :: (s.data ++ (renderPointer rest).data) := by
      show (("/" ++ s) ++ renderPointer rest).data = _
      rw [String.data_append, String.data_append, List.append_assoc]
      rfl
    rw [hd]
    simp only [List.map_cons, List.map_append, if_pos rfl]
    rw [map_slashDot_of_no_slash s.data (h s (List.mem_cons_self s rest)),
      ih (fun x hx => h x (List.mem_cons_of_mem s hx))]
    rfl

lemma stripLeadingSlash_renderPointer_cons (s : String) (rest : List String) :
    stripLeadingSlash (renderPointer (s :: rest)) = s ++ renderPointer rest := by
  have hd : (renderPointer (s :: rest)).data = '/' :: (s ++ renderPointer rest).data := by
    show (("/" ++ s) ++ renderPointer rest).data = _
    rw [String.data_append, String.data_append, String.data_append, List.append_assoc]
    rfl
  unfold stripLeadingSlash
  rw [hd]
  rfl

lemma dotJoined_data (s : String) (rest : List String) :
    (dotJoined (s :: rest)).data = s.data ++ dotPrefixData rest := by
  induction rest generalizing s with
  | nil => simp [dotJoined, dotPrefixData]
  | cons x xs ih =>
    show ((s ++ "." ++ dotJoined (x :: xs))).data = _
    rw [String.data_append, String.data_append, ih x]
    simp [dotPrefixData]

/-- The code's `formattedPath` of the rendered JSON-Pointer agrees with
the spec's dot-joined rendering, provided no segment itself contains the
separator. -/
lemma formattedPath_renderPointer (l : List String) (h : ∀ s ∈ l, '/' ∉ s.data) :
    formattedPath (renderPointer l) = dotJoined l := by
  cases l with
  | nil => rfl
  | cons s rest =>
    apply String.ext
    show (slashToDot (stripLeadingSlash (renderPointer (s :: rest)))).data = _
    rw [stripLeadingSlash_renderPointer_cons, dotJoined_data]
    show ((s ++ renderPointer rest).data).map _ = _
    rw [String.data_append, List.map_append,
      map_slashDot_of_no_slash s.data (h s (List.mem_cons_self s rest)),
      map_slashDot_renderPointer rest (fun x hx => h x (List.mem_cons_of_mem s hx))]

/-- C2: for every validation failure, `formatErrorMessage` produces
exactly the per-kind template of the spec's §4.4 table, with `{path}` the
dot-joined JSON-Pointer path with the leading separator stripped — stated
as a refinement: the code's formatter on the rendered pointer string
equals the spec's formatter on the structured path, for every failure
whose segments do not contain the separator character. -/
theorem formatErrorMessage_matches_spec (segs : List String) (k : ErrKind) (m : Option String)
    (h : ∀ s ∈ segs, '/' ∉ s.data) :
    formatErrorMessage ⟨renderPointer segs, k, m⟩ = specFormatMessage segs k m := by
  have hp := formattedPath_renderPointer segs h
  cases k <;> simp only [formatErrorMessage, specFormatMessage, hp]

/-- Witness for C2 at a concrete failure (`meta.arch` enum violation). -/
theorem formatErrorMessage_matches_spec_witness :
    formatErrorMessage ⟨renderPointer ["meta", "arch"], .ofEnum ["amd64", "arm64"], none⟩ =
      specFormatMessage ["meta", "arch"] (.ofEnum ["amd64", "arm64"]) none :=
  formatErrorMessage_matches_spec ["meta", "arch"] (.ofEnum ["amd64", "arm64"]) none (by decide)

/-- C3 (divergence): for a `Required` failure with the empty instance
path (a missing top-level field) on the spec's own example text,
`getErrorRange` does not return `(0,0)-(0,0)` — the always-true
`path.length` test plus the trailing `'.'` appended to `parentPath`
send the walk through two empty-segment searches, landing mid-word at
`(1,5)`; and for a `Required` failure below `meta` it lands at `(1,4)`,
inside `version`, not on the parent key `meta`. -/
theorem getErrorRange_required_misplaced :
    getErrorRange ⟨"", .required "version", none⟩ "type: plugin\nauthor: a\nname: n" =
      ⟨1, 5, 1, 5⟩ ∧
    (⟨1, 5, 1, 5⟩ : TextRange) ≠ range0 ∧
    getErrorRange ⟨"/meta", .required "arch", none⟩ "meta:\n  version: 1" = ⟨1, 4, 1, 4⟩ := by
  refine ⟨by decide, by decide, by decide⟩

/-- C9 (divergence): on `items:\n  - a\n  - b\n` with failure path
`/items/1`, the spec's `locateListMarker` finds the second list item on
line 2, but the code's cooked pattern `^s{2}-s` (the template literal
`\s` cooks to the letter `s`) never matches a real list line, so the
resolver falls back to the document-start range; `idxSearch` shows the
index-branch search itself missing. -/
theorem getRangeForPath_index_regex_inert :
    getRangeForPath "items:\n  - a\n  - b\n" "/items/1" = range0 ∧
    specLocateListMarker "items:\n  - a\n  - b\n" 0 2 1 = some 2 ∧
    idxSearch 2 1 ("\n  - a\n  - b\n".data) = false := by
  refine ⟨by decide, by decide, by decide⟩

lemma runValidationE_error (validate : Option (YamlValue → List ErrorObject))
    (parse : String → Except String YamlValue) (text msg : String)
    (h : parse text = .error msg) :
    runValidationE validate parse text =
      Except.map (fun d => ([d], 0)) (parseErrorDiag text msg) := by
  unfold runValidationE
  rw [h]

lemma runValidationE_some_ok (f : YamlValue → List ErrorObject)
    (parse : String → Except String YamlValue) (text : String) (y : YamlValue)
    (h : parse text = .ok y) :
    runValidationE (some f) parse text =
      (if falsy y = true then
        Except.map (fun d => ([d], 0)) (parseErrorDiag text "Empty YAML document")
      else .ok ((f y).map (mkSchemaDiag text), 1)) := by
  unfold runValidationE
  rw [h]

lemma runValidationE_none_ok (parse : String → Except String YamlValue)
    (text : String) (y : YamlValue) (h : parse text = .ok y) :
    runValidationE none parse text =
      (if falsy y = true then
        Except.map (fun d => ([d], 0)) (parseErrorDiag text "Empty YAML document")
      else .ok (fallbackValidation y text, 0)) := by
  unfold runValidationE
  rw [h]

/-- C1: on any text the parser rejects, the pass yields exactly one
diagnostic — severity `Error`, message `YAML parsing error: {original
message}`, ranged over the reported failing line (clamped to the last
line) or the document-start range when no line is reported — it is stored
as the document's whole diagnostic list, and the schema validator is
invoked zero times.  The hypothesis `extractLineNum msg ≠ some 0` records
that parser line reports are 1-based (`lineAt` would throw on `line 0`). -/
theorem validateYaml_parse_failure
    (validate : Option (YamlValue → List ErrorObject))
    (parse : String → Except String YamlValue)
    (doc : VsDocument) (coll : DiagCollection) (msg : String)
    (hname : basename doc.fileName = "manifest.yaml")
    (hparse : parse doc.text = .error msg)
    (hline : extractLineNum msg ≠ some 0) :
    ∃ d : Diagnostic,
      runValidationE validate parse doc.text = .ok ([d], 0) ∧
      validateYamlDocument validate parse doc coll = .ok (setDiags doc.fileName [d] coll) ∧
      d.severity = .error ∧
      d.message = "YAML parsing error: " ++ msg ∧
      ((∃ n, extractLineNum msg = some n ∧ 1 ≤ n ∧
          d.range = lineRange doc.text (min (n - 1) (lineCount doc.text - 1))) ∨
        (extractLineNum msg = none ∧ d.range = range0)) := by
  have hdiag : ∃ d, parseErrorDiag doc.text msg = .ok d ∧ d.severity = .error ∧
      d.message = "YAML parsing error: " ++ msg ∧
      ((∃ n, extractLineNum msg = some n ∧ 1 ≤ n ∧
          d.range = lineRange doc.text (min (n - 1) (lineCount doc.text - 1))) ∨
        (extractLineNum msg = none ∧ d.range = range0)) := by
    cases hl : extractLineNum msg with
    | none =>
      refine ⟨⟨range0, "YAML parsing error: " ++ msg, .error⟩, ?_, rfl, rfl, Or.inr ⟨rfl, rfl⟩⟩
      simp only [parseErrorDiag, hl]
    | some n =>
      have hn0 : n ≠ 0 := fun he => hline (he ▸ hl)
      refine ⟨⟨lineRange doc.text (min (n - 1) (lineCount doc.text - 1)),
        "YAML parsing error: " ++ msg, .error⟩, ?_, rfl, rfl,
        Or.inl ⟨n, rfl, Nat.one_le_iff_ne_zero.mpr hn0, rfl⟩⟩
      simp only [parseErrorDiag, hl]
      rw [if_neg hn0]
  obtain ⟨d, hd, hsev, hmsg, hrange⟩ := hdiag
  have hrun : runValidationE validate parse doc.text = .ok ([d], 0) := by
    rw [runValidationE_error validate parse doc.text msg hparse, hd]
    rfl
  refine ⟨d, hrun, ?_, hsev, hmsg, hrange⟩
  unfold validateYamlDocument
  rw [if_neg (by simp [hname]), hrun]
  rfl

/-- Witness for C1 at a parser stub rejecting with `x at line 3` on a
two-line document: line 2 (0-based 1, clamped) carries the diagnostic. -/
theorem validateYaml_parse_failure_witness :
    runValidationE none (fun _ => Except.error "x at line 3") "a\nb" =
      .ok ([⟨⟨1, 0, 1, 1⟩, "YAML parsing error: x at line 3", .error⟩], 0) ∧
    validateYamlDocument none (fun _ => Except.error "x at line 3")
        ⟨"manifest.yaml", "a\nb"⟩ (fun _ => none) =
      .ok (setDiags "manifest.yaml"
        [⟨⟨1, 0, 1, 1⟩, "YAML parsing error: x at line 3", .error⟩] (fun _ => none)) := by
  obtain ⟨d, h1, h2, _, _, _⟩ := validateYaml_parse_failure none
    (fun _ => Except.error "x at line 3") ⟨"manifest.yaml", "a\nb"⟩ (fun _ => none)
    "x at line 3" (by decide) rfl (by decide)
  have h1' : runValidationE none (fun _ => Except.error "x at line 3") "a\nb" =
      .ok ([⟨⟨1, 0, 1, 1⟩, "YAML parsing error: x at line 3", .error⟩], 0) := rfl
  have hd : d = ⟨⟨1, 0, 1, 1⟩, "YAML parsing error: x at line 3", .error⟩ := by
    have h12 := h1.symm.trans h1'
    simp only [Except.ok.injEq, Prod.mk.injEq, List.cons.injEq, and_true] at h12
    exact h12
  rw [hd] at h2
  exact ⟨h1', h2⟩

/-- C7: with a loaded validator and a parsable, non-falsy document, the
pass emits exactly the validator's failures, one diagnostic per failure,
mapped in the validator's reported order, each of severity `Error`; an
empty failure list yields an empty diagnostic list. -/
theorem runValidation_one_diag_per_failure
    (f : YamlValue → List ErrorObject) (parse : String → Except String YamlValue)
    (text : String) (y : YamlValue)
    (hparse : parse text = .ok y) (hy : falsy y = false) :
    runValidationE (some f) parse text = .ok ((f y).map (mkSchemaDiag text), 1) ∧
    (∀ d ∈ (f y).map (mkSchemaDiag text), d.severity = .error) ∧
    ((f y).map (mkSchemaDiag text)).length = (f y).length ∧
    (f y = [] → (f y).map (mkSchemaDiag text) = []) := by
  refine ⟨?_, ?_, by simp, fun h => by rw [h]; rfl⟩
  · rw [runValidationE_some_ok f parse text y hparse, hy]
    rfl
  · intro d hd
    obtain ⟨e, _, he⟩ := List.mem_map.mp hd
    rw [← he]
    rfl

/-- Witness for C7: a one-failure validator on `type: app`. -/
theorem runValidation_one_diag_per_failure_witness :
    runValidationE (some (fun _ => [⟨"/type", .ofEnum ["plugin"], none⟩]))
        (fun _ => Except.ok (.vMap [("type", .vStr "app")])) "type: app" =
      .ok (([⟨"/type", ErrKind.ofEnum ["plugin"], none⟩].map (mkSchemaDiag "type: app")), 1) :=
  (runValidation_one_diag_per_failure (fun _ => [⟨"/type", .ofEnum ["plugin"], none⟩])
    (fun _ => Except.ok (.vMap [("type", .vStr "app")])) "type: app"
    (.vMap [("type", .vStr "app")]) rfl rfl).1

/-- C5: the pass is deterministic and stateless across calls — for two
invocations on documents with identical text (each passing the
`manifest.yaml` guard), the computed pass results are identical and the
diagnostic lists stored under the two documents' URIs are identical,
whatever the two prior collection states were. -/
theorem validateYaml_stateless
    (validate : Option (YamlValue → List ErrorObject))
    (parse : String → Except String YamlValue)
    (d1 d2 : VsDocument) (c1 c2 r1 r2 : DiagCollection)
    (htext : d1.text = d2.text)
    (hn1 : basename d1.fileName = "manifest.yaml")
    (hn2 : basename d2.fileName = "manifest.yaml")
    (h1 : validateYamlDocument validate parse d1 c1 = .ok r1)
    (h2 : validateYamlDocument validate parse d2 c2 = .ok r2) :
    runValidationE validate parse d1.text = runValidationE validate parse d2.text ∧
    r1 d1.fileName = r2 d2.fileName := by
  have hrr : runValidationE validate parse d1.text = runValidationE validate parse d2.text := by
    rw [htext]
  refine ⟨hrr, ?_⟩
  unfold validateYamlDocument at h1 h2
  rw [if_neg (by simp [hn1])] at h1
  rw [if_neg (by simp [hn2])] at h2
  cases hr : runValidationE validate parse d1.text with
  | error e =>
    rw [hr] at h1
    exact absurd h1 (by simp [Except.map])
  | ok p =>
    have hr2 : runValidationE validate parse d2.text = .ok p := hrr ▸ hr
    rw [hr] at h1
    rw [hr2] at h2
    simp only [Except.map, Except.ok.injEq] at h1 h2
    rw [← h1, ← h2]
    simp [setDiags]

/-- Witness for C5: the same text under two different file names and two
different prior collections stores the same (empty) diagnostics list. -/
theorem validateYaml_stateless_witness :
    runValidationE (some (fun _ => [])) (fun _ => Except.ok (.vSeq [])) "a" =
      runValidationE (some (fun _ => [])) (fun _ => Except.ok (.vSeq [])) "a" ∧
    setDiags "manifest.yaml" [] (fun _ => none) "manifest.yaml" =
      setDiags "p/manifest.yaml" [] (fun _ => some []) "p/manifest.yaml" :=
  validateYaml_stateless (some (fun _ => [])) (fun _ => Except.ok (.vSeq []))
    ⟨"manifest.yaml", "a"⟩ ⟨"p/manifest.yaml", "a"⟩ (fun _ => none) (fun _ => some [])
    (setDiags "manifest.yaml" [] (fun _ => none))
    (setDiags "p/manifest.yaml" [] (fun _ => some []))
    rfl (by decide) (by decide) rfl rfl

/-- With no compiled validator the pass never invokes one: the reported
call count of any successful pass is zero. -/
lemma runValidationE_none_call_count
    (parse : String → Except String YamlValue) (text : String)
    (r : List Diagnostic × Nat)
    (h : runValidationE none parse text = .ok r) : r.2 = 0 := by
  cases hp : parse text with
  | error msg =>
    rw [runValidationE_error none parse text msg hp] at h
    cases hd : parseErrorDiag text msg with
    | error e => rw [hd] at h; simp [Except.map] at h
    | ok d =>
      rw [hd] at h
      simp only [Except.map, Except.ok.injEq] at h
      rw [← h]
  | ok y =>
    rw [runValidationE_none_ok parse text y hp] at h
    cases hy : falsy y with
    | true =>
      rw [hy, if_pos rfl] at h
      cases hd : parseErrorDiag text "Empty YAML document" with
      | error e => rw [hd] at h; simp [Except.map] at h
      | ok d =>
        rw [hd] at h
        simp only [Except.map, Except.ok.injEq] at h
        rw [← h]
    | false =>
      rw [hy, if_neg (by simp)] at h
      simp only [Except.ok.injEq] at h
      rw [← h]

/-- C8: when the schema artifact cannot be read or parsed at startup,
`initializeValidator` logs one schema-loading error, leaves the compiled
validator unset, and does not propagate the failure; every subsequent
successful validation pass in that state invokes the schema validator
zero times (so no schema diagnostics are produced). -/
theorem initializeValidator_failure_inert {σ : Type}
    (readSchema : Except String String) (parseJson : String → Except String σ)
    (compile : σ → YamlValue → List ErrorObject)
    (hfail : (∃ e, readSchema = .error e) ∨
      (∃ c e, readSchema = .ok c ∧ parseJson c = .error e)) :
    (initializeValidator readSchema parseJson compile).validate = none ∧
    (∃ e, (initializeValidator readSchema parseJson compile).log =
      ["Error loading schema: " ++ e]) ∧
    (∀ (parse : String → Except String YamlValue) (text : String)
        (r : List Diagnostic × Nat),
      runValidationE (initializeValidator readSchema parseJson compile).validate
          parse text = .ok r → r.2 = 0) := by
  have hstate : (initializeValidator readSchema parseJson compile).validate = none ∧
      ∃ e, (initializeValidator readSchema parseJson compile).log =
        ["Error loading schema: " ++ e] := by
    rcases hfail with ⟨e, he⟩ | ⟨c, e, hc, he⟩
    · rw [he]
      exact ⟨rfl, e, rfl⟩
    · have hinit : initializeValidator readSchema parseJson compile =
          ⟨none, ["Error loading schema: " ++ e]⟩ := by
        unfold initializeValidator
        rw [hc]
        show (match parseJson c with
          | Except.error e => (⟨none, ["Error loading schema: " ++ e]⟩ : ValidatorState)
          | Except.ok s => ⟨some (compile s), ["Schema loaded successfully"]⟩) = _
        rw [he]
      rw [hinit]
      exact ⟨rfl, e, rfl⟩
  refine ⟨hstate.1, hstate.2, fun parse text r h => ?_⟩
  rw [hstate.1] at h
  exact runValidationE_none_call_count parse text r h

/-- Witness for C8: a missing schema file (`ENOENT`); the inert pass on a
falsy parse reports zero validator invocations. -/
theorem initializeValidator_failure_inert_witness :
    (initializeValidator (Except.error "ENOENT") (fun _ : String => Except.ok ())
      (fun (_ : Unit) (_ : YamlValue) => ([] : List ErrorObject))).validate = none ∧
    (([(⟨range0, "YAML parsing error: Empty YAML document", .error⟩ : Diagnostic)], 0) :
      List Diagnostic × Nat).2 = 0 := by
  have h := initializeValidator_failure_inert (Except.error "ENOENT")
    (fun _ : String => Except.ok ()) (fun (_ : Unit) (_ : YamlValue) => [])
    (Or.inl ⟨"ENOENT", rfl⟩)
  exact ⟨h.1, h.2.2 (fun _ => Except.ok YamlValue.vNull) "x" _ rfl⟩

/-- C10: when the workspace folder is undefined, or the document's path
does not start with the folder's path, or the document's basename is not
`manifest.yaml`, `validateManifest` leaves the diagnostic collection
untouched: every URI's stored diagnostics are unchanged. -/
theorem validateManifest_frame
    (vf : YamlValue → List ErrorObject) (parse : String → ParseOutcome)
    (doc : VsDocument) (coll : DiagCollection) (wfu : Option String)
    (h : wfu = none ∨
      (∃ w, wfu = some w ∧ w.data.isPrefixOf doc.fileName.data = false) ∨
      basename doc.fileName ≠ "manifest.yaml") :
    ∀ u, validateManifest vf parse doc coll wfu u = coll u := by
  have hsome : ∀ w, validateManifest vf parse doc coll (some w) =
      (if (!w.data.isPrefixOf doc.fileName.data) = true then coll
       else if basename doc.fileName ≠ "manifest.yaml" then coll
       else setDiags doc.fileName (manifestDiags vf (parse doc.text) doc.text) coll) :=
    fun _ => rfl
  intro u
  rcases h with h | ⟨w, hw, hpre⟩ | hbase
  · subst h
    rfl
  · subst hw
    rw [hsome, hpre]
    rfl
  · cases wfu with
    | none => rfl
    | some w =>
      rw [hsome]
      cases hpre : w.data.isPrefixOf doc.fileName.data with
      | false => rfl
      | true => rw [if_neg (by simp), if_pos hbase]

/-- Witness for C10: a non-manifest file inside the workspace folder is
ignored; the (empty) collection is unchanged at a probe URI. -/
theorem validateManifest_frame_witness :
    validateManifest (fun _ => []) (fun _ => .otherError "x")
      ⟨"/w/other.yaml", ""⟩ (fun _ => none) (some "/w") "/w/other.yaml" = none :=
  validateManifest_frame (fun _ => []) (fun _ => .otherError "x")
    ⟨"/w/other.yaml", ""⟩ (fun _ => none) (some "/w")
    (Or.inr (Or.inr (by decide))) "/w/other.yaml"

/-- C4: `checkDifyDirectory` is the claimed two-state machine per root.
With the decoration registry in sync with the confirmed set and both
duplicate-free: (1) all markers present and root unrecognized — promote
and emit exactly one added event; (2) some marker absent and root
recognized — demote and emit exactly one removed event; (3, 4) otherwise
no state change and no events; (5) after any call the root is recognized
iff all markers existed at this check; (6) other roots are untouched. -/
theorem checkDifyDirectory_state_machine
    (exists_ : String → Bool) (uri : String)
    (vo : Option (DiagCollection → DiagCollection)) (st : ExtState)
    (hsync : ∀ u, u ∈ st.confirmedDifyDirs ↔ u ∈ st.decoDirs)
    (hnodup : st.confirmedDifyDirs.Nodup) :
    ((∀ f ∈ difyFiles, exists_ f = true) → uri ∉ st.confirmedDifyDirs →
      uri ∈ (checkDifyDirectory exists_ uri vo st).1.confirmedDifyDirs ∧
      (checkDifyDirectory exists_ uri vo st).2 = [.added uri]) ∧
    ((∃ f ∈ difyFiles, exists_ f = false) → uri ∈ st.confirmedDifyDirs →
      uri ∉ (checkDifyDirectory exists_ uri vo st).1.confirmedDifyDirs ∧
      (checkDifyDirectory exists_ uri vo st).2 = [.removed uri]) ∧
    ((∀ f ∈ difyFiles, exists_ f = true) → uri ∈ st.confirmedDifyDirs →
      (checkDifyDirectory exists_ uri vo st).1 = st ∧
      (checkDifyDirectory exists_ uri vo st).2 = []) ∧
    ((∃ f ∈ difyFiles, exists_ f = false) → uri ∉ st.confirmedDifyDirs →
      (checkDifyDirectory exists_ uri vo st).1 = st ∧
      (checkDifyDirectory exists_ uri vo st).2 = []) ∧
    (uri ∈ (checkDifyDirectory exists_ uri vo st).1.confirmedDifyDirs ↔
      ∀ f ∈ difyFiles, exists_ f = true) ∧
    (∀ v, v ≠ uri →
      (v ∈ (checkDifyDirectory exists_ uri vo st).1.confirmedDifyDirs ↔
        v ∈ st.confirmedDifyDirs)) := by
  cases hfind : difyFiles.find? (fun f => !exists_ f) with
  | none =>
    have hall : ∀ f ∈ difyFiles, exists_ f = true := by
      intro f hf
      have := List.find?_eq_none.mp hfind f hf
      simpa using this
    by_cases hmem : uri ∈ st.confirmedDifyDirs
    · refine ⟨fun _ h => absurd hmem h, ?_, fun _ _ => ?_, fun he _ => ?_, ?_, ?_⟩
      · rintro ⟨f, hf, hfe⟩ _
        rw [hall f hf] at hfe
        exact absurd hfe (by simp)
      · simp [checkDifyDirectory, hfind, if_pos hmem]
      · obtain ⟨f, hf, hfe⟩ := he
        rw [hall f hf] at hfe
        exact absurd hfe (by simp)
      · simp only [checkDifyDirectory, hfind, if_pos hmem]
        exact ⟨fun _ => hall, fun _ => hmem⟩
      · intro v _
        simp [checkDifyDirectory, hfind, if_pos hmem]
    · have hdeco : uri ∉ st.decoDirs := fun hin => hmem ((hsync uri).mpr hin)
      refine ⟨fun _ _ => ?_, ?_, fun _ h => absurd h hmem, ?_, ?_, ?_⟩
      · simp [checkDifyDirectory, hfind, if_neg hmem, addDifyDirectory, hdeco]
      · rintro ⟨f, hf, hfe⟩ _
        rw [hall f hf] at hfe
        exact absurd hfe (by simp)
      · rintro ⟨f, hf, hfe⟩ _
        rw [hall f hf] at hfe
        exact absurd hfe (by simp)
      · simp only [checkDifyDirectory, hfind, if_neg hmem]
        exact ⟨fun _ => hall, fun _ => List.mem_cons_self uri _⟩
      · intro v hv
        simp [checkDifyDirectory, hfind, if_neg hmem, hv]
  | some f =>
    have hf : f ∈ difyFiles := List.mem_of_find?_eq_some hfind
    have hfe : exists_ f = false := by
      have := List.find?_some hfind
      simpa using this
    have hnall : ¬ ∀ g ∈ difyFiles, exists_ g = true := fun hall => by
      rw [hall f hf] at hfe
      exact absurd hfe (by simp)
    by_cases hmem : uri ∈ st.confirmedDifyDirs
    · have hdeco : uri ∈ st.decoDirs := (hsync uri).mp hmem
      refine ⟨fun hall _ => absurd hall hnall, fun _ _ => ?_,
        fun hall _ => absurd hall hnall, fun _ h => absurd hmem h, ?_, ?_⟩
      · constructor
        · simp only [checkDifyDirectory, hfind, if_pos hmem]
          intro hin
          exact absurd ((hnodup.mem_erase_iff).mp hin).1 (by simp)
        · simp [checkDifyDirectory, hfind, if_pos hmem, removeDifyDirectory, hdeco]
      · constructor
        · simp only [checkDifyDirectory, hfind, if_pos hmem]
          intro hin
          exact absurd ((hnodup.mem_erase_iff).mp hin).1 (by simp)
        · intro hall
          exact absurd hall hnall
      · intro v hv
        simp only [checkDifyDirectory, hfind, if_pos hmem]
        rw [hnodup.mem_erase_iff]
        simp [hv]
    · refine ⟨fun hall _ => absurd hall hnall, fun _ h => absurd h hmem,
        fun hall _ => absurd hall hnall, fun _ _ => ?_, ?_, ?_⟩
      · simp [checkDifyDirectory, hfind, if_neg hmem]
      · simp only [checkDifyDirectory, hfind, if_neg hmem]
        exact ⟨fun h => absurd h hmem, fun hall => absurd hall hnall⟩
      · intro v _
        simp [checkDifyDirectory, hfind, if_neg hmem]

/-- Witness for C4: all markers present under a fresh root — the root is
promoted and exactly one added event fires. -/
theorem checkDifyDirectory_state_machine_witness :
    "file:///p" ∈ (checkDifyDirectory (fun _ => true) "file:///p" none
      ⟨[], [], fun _ => none⟩).1.confirmedDifyDirs ∧
    (checkDifyDirectory (fun _ => true) "file:///p" none
      ⟨[], [], fun _ => none⟩).2 = [.added "file:///p"] :=
  (checkDifyDirectory_state_machine (fun _ => true) "file:///p" none
    ⟨[], [], fun _ => none⟩ (fun _ => Iff.rfl) List.nodup_nil).1
    (by decide) (by decide)

end Dify
